import Mathlib

/- Verification development for the isisdl discovery / resolution / conflict-resolution
pipeline (src/isisdl/backend/request_helper.py), as a shallow embedding in Lean.
Python strings are modelled by `String`, Python ints by `Int`, Python's stable `sorted`
by `List.insertionSort` (which is stable), and the persisted cache by an explicit
`Database` value threaded through the resolution function. -/

/-- MediaType enum from isisdl.backend.downloads (only the members used by
request_helper.py; the enum itself lives outside the embedded file). -/
inductive MediaType where
  | document
  | external
  | video
deriving DecidableEq

/-- Embeds the dataclass `PreMediaContainer` (request_helper.py, lines 67-77). -/
structure PreMediaContainer where
  _name : String
  url : String
  download_url : String
  location : String
  time : Int
  course_id : Int
  media_type : MediaType
  size : Int := -1
  checksum : Option String := none
deriving DecidableEq

/-- Embeds the dataclass `Course` (request_helper.py, lines 260-265). -/
structure Course where
  old_name : String
  _name : String
  name : String
  course_id : Int
deriving DecidableEq

/-- The whitelist / blacklist part of the global `config` object consulted by
`Course.ok`; `none` models a Python `None` (set not configured). -/
structure Config where
  whitelist : Option (List Int) := none
  blacklist : Option (List Int) := none

/-- Embeds the property `Course.ok` (request_helper.py, lines 381-395): the four
whitelist/blacklist cases, in the order the source tests them. -/
def Course.ok (config : Config) (self : Course) : Bool :=
  match config.whitelist, config.blacklist with
  | none, none => true
  | none, some blacklist => !(blacklist.contains self.course_id)
  | some whitelist, none => whitelist.contains self.course_id
  | some whitelist, some blacklist =>
      whitelist.contains self.course_id && !(blacklist.contains self.course_id)

/-- The order used by Python's `sorted` on `Course` values: `Course.__lt__` compares
`course_id` (request_helper.py, lines 418-419); a stable sort by that key is a sort
with respect to the non-strict relation below. -/
def courseLE (a b : Course) : Prop := a.course_id ≤ b.course_id

instance : DecidableRel courseLE := fun a b => inferInstanceAs (Decidable (a.course_id ≤ b.course_id))

instance : IsTotal Course courseLE := ⟨fun a b => Int.le_total a.course_id b.course_id⟩

instance : IsTrans Course courseLE := ⟨fun _ _ _ h1 h2 => le_trans h1 h2⟩

/-- Embeds `RequestHelper.get_courses` (request_helper.py, lines 462-476): the loop
appends every enumerated course to `_courses` and, when `Course.ok` holds, also to
`courses`; both lists are then sorted ascending by course id. Returns
(`_courses`, `courses`). The `course_id_mapping` side table is not modelled. -/
def get_courses (config : Config) (res : List Course) : List Course × List Course :=
  let _courses := res
  let courses := res.filter (fun c => Course.ok config c)
  (List.insertionSort courseLE _courses, List.insertionSort courseLE courses)

/-- Values a `Course` can be compared against in `Course.__eq__`: another Course,
a Python bool, str or int, or anything else. -/
inductive PyValue where
  | course (c : Course)
  | pyBool (b : Bool)
  | str (s : String)
  | int (n : Int)
  | other
deriving DecidableEq

/-- Embeds `Course.__eq__` (request_helper.py, lines 403-413): `other is True`
returns True outright; a Course compares by id; a str or int (Python's bool False
included, since bool is a subclass of int) compares by stringified id; everything
else is unequal. `Int.repr` models Python's `str` on ints; `str(False)` is "False". -/
def Course.eq (self : Course) (v : PyValue) : Bool :=
  match v with
  | .pyBool true => true
  | .course c => self.course_id == c.course_id
  | .str s => Int.repr self.course_id == s
  | .int n => Int.repr self.course_id == Int.repr n
  | .pyBool false => Int.repr self.course_id == "False"
  | .other => false

/-- Embeds `Course.__hash__` (request_helper.py, lines 415-416). -/
def Course.hash (self : Course) : Int := self.course_id

/-- Embeds `Course.__lt__` (request_helper.py, lines 418-419). -/
def Course.lt (self other : Course) : Bool := self.course_id < other.course_id

theorem get_courses_fst (config : Config) (res : List Course) :
    (get_courses config res).1 = List.insertionSort courseLE res := rfl

theorem get_courses_snd (config : Config) (res : List Course) :
    (get_courses config res).2 = List.insertionSort courseLE (res.filter (fun c => Course.ok config c)) := rfl

/-- C1: for every configuration and enumerated course list, the filtered view
`courses` is a subset of the full view `_courses`, both are sorted ascending by
course id, `_courses` holds exactly the enumerated courses, and membership in
`courses` follows the four documented whitelist/blacklist cases. -/
theorem get_courses_whitelist_blacklist_spec (config : Config) (res : List Course) :
    (∀ c, c ∈ (get_courses config res).2 → c ∈ (get_courses config res).1)
    ∧ List.Sorted courseLE (get_courses config res).1
    ∧ List.Sorted courseLE (get_courses config res).2
    ∧ (∀ c, c ∈ (get_courses config res).1 ↔ c ∈ res)
    ∧ (∀ c, c ∈ (get_courses config res).2 ↔ c ∈ res ∧
        (match config.whitelist, config.blacklist with
         | none, none => True
         | none, some blacklist => c.course_id ∉ blacklist
         | some whitelist, none => c.course_id ∈ whitelist
         | some whitelist, some blacklist =>
             c.course_id ∈ whitelist ∧ c.course_id ∉ blacklist)) := by
  rw [get_courses_fst, get_courses_snd]
  refine ⟨?_, List.sorted_insertionSort courseLE res, List.sorted_insertionSort courseLE _, ?_, ?_⟩
  · intro c hc
    rw [List.mem_insertionSort] at hc ⊢
    exact (List.mem_filter.1 hc).1
  · intro c
    exact List.mem_insertionSort courseLE
  · intro c
    rw [List.mem_insertionSort, List.mem_filter]
    rcases config with ⟨wl, bl⟩
    rcases wl with _ | wl <;> rcases bl with _ | bl <;>
      simp [Course.ok, List.contains, List.elem_iff]

/-- C9 counterexample: the claim says course_id is the sole equality key, but
`Course.__eq__` returns True whenever the compared value is Python's `True`:
two courses with different ids (5 and 6) both compare equal to `True`. -/
theorem course_eq_true_quirk :
    Course.eq ⟨"a", "a", "a", 5⟩ (PyValue.pyBool true) = true
    ∧ Course.eq ⟨"b", "b", "b", 6⟩ (PyValue.pyBool true) = true
    ∧ (5 : Int) ≠ 6 := by
  refine ⟨rfl, rfl, by decide⟩

/-- C9 (amended): two Courses are equal iff their course ids are equal, a Course is
less than another iff its id is smaller, and a Course's hash is its id; however
comparison with Python's `True` always succeeds regardless of the id, and
comparison with a str or int succeeds iff it equals the stringified id. -/
theorem course_eq_order_hash_spec :
    (∀ c₁ c₂ : Course, Course.eq c₁ (PyValue.course c₂) = true ↔ c₁.course_id = c₂.course_id)
    ∧ (∀ c : Course, Course.eq c (PyValue.pyBool true) = true)
    ∧ (∀ (c : Course) (s : String), Course.eq c (PyValue.str s) = true ↔ Int.repr c.course_id = s)
    ∧ (∀ (c : Course) (n : Int), Course.eq c (PyValue.int n) = true ↔ Int.repr c.course_id = Int.repr n)
    ∧ (∀ c : Course, Course.eq c PyValue.other = false)
    ∧ (∀ c₁ c₂ : Course, Course.lt c₁ c₂ = true ↔ c₁.course_id < c₂.course_id)
    ∧ (∀ c : Course, Course.hash c = c.course_id) := by
  refine ⟨?_, fun c => rfl, ?_, ?_, fun c => rfl, ?_, fun c => rfl⟩
  · intro c₁ c₂
    simp [Course.eq]
  · intro c s
    simp [Course.eq]
  · intro c n
    simp [Course.eq]
  · intro c₁ c₂
    simp [Course.lt]

/- String helpers modelling the Python string operations used by the source.
Python code points are modelled by `Char`, so slicing maps to `List.take` and
`List.drop` on `String.data`. -/

/-- True iff `needle` occurs as a contiguous substring; models Python's `in` on str. -/
def containsSubAux (needle : List Char) : List Char → Bool
  | [] => needle.isPrefixOf []
  | c :: rest => needle.isPrefixOf (c :: rest) || containsSubAux needle rest

/-- Models Python `needle in hay` for strings. -/
def strContainsSub (hay needle : String) : Bool := containsSubAux needle.data hay.data

/-- Models Python `s.endswith(t)`. -/
def strEndsWith (s t : String) : Bool := t.data.isSuffixOf s.data

/-- Models Python `s.startswith(t)`. -/
def strStartsWith (s t : String) : Bool := t.data.isPrefixOf s.data

/-- Models the Python slice `s[:-n]` for `0 < n ≤ len(s)` (drop the last n code points). -/
def strDropRight (s : String) (n : Nat) : String := String.mk (s.data.take (s.data.length - n))

/-- Models Python `s.strip("/")`. -/
def stripSlashes (s : String) : String :=
  String.mk (((s.data.dropWhile (fun c => c = '/')).reverse.dropWhile (fun c => c = '/')).reverse)

/-- Models Python `str.rfind`: index of the last occurrence, -1 when absent. -/
def rfindChar (l : List Char) (c : Char) : Int :=
  match l.reverse.findIdx? (fun x => x = c) with
  | none => -1
  | some j => (l.length : Int) - 1 - (j : Int)

/-- Models `os.path.splitext` (CPython genericpath._splitext with sep "/"): split at
the last dot, unless every character of the basename before it is itself a dot. -/
def splitext (p : String) : String × String :=
  let l := p.data
  let sepIndex := rfindChar l '/'
  let dotIndex := rfindChar l '.'
  if sepIndex < dotIndex then
    if ((l.drop (sepIndex + 1).toNat).take (dotIndex - sepIndex - 1).toNat).any (fun ch => ch ≠ '.') then
      (String.mk (l.take dotIndex.toNat), String.mk (l.drop dotIndex.toNat))
    else (p, "")
  else (p, "")

/-- Models `os.path.basename` (posix): everything after the last "/". -/
def basename (p : String) : String := String.mk ((p.data.reverse.takeWhile (fun c => c ≠ '/')).reverse)

/-- Models `os.path.join(a, b)` for a non-absolute `b` (the only use in the source). -/
def osPathJoin (a b : String) : String :=
  if a = "" then b else if strEndsWith a "/" then a ++ b else a ++ "/" ++ b

/-- The force-download suffix the source strips from URLs (request_helper.py,
lines 182-183 and 229-230). -/
def forcedownloadSuffix : String := "?forcedownload=1"

/-- The strip step applied to a URL ending in the force-download suffix. -/
def strip_forcedownload (s : String) : String :=
  if strEndsWith s forcedownloadSuffix then strDropRight s forcedownloadSuffix.length else s

/-- The tubcloud rewrite (request_helper.py, lines 144-148): append "/download"
only when not already present. -/
def tubcloudDownloadUrl (url : String) : String :=
  if strEndsWith url "/download" then url else url ++ "/download"

/- The persisted cache (isisdl's database_helper, external to the embedded file):
a negative cache of bad URLs and a positive cache keyed by source url. -/

/-- State of the persisted cache consulted by the resolver. -/
structure Database where
  badUrls : List String := []
  containers : List (String × PreMediaContainer) := []
deriving DecidableEq

/-- Models `database_helper.add_bad_url`. -/
def Database.add_bad_url (db : Database) (url : String) : Database :=
  ⟨url :: db.badUrls, db.containers⟩

/-- Models `database_helper.get_pre_container_by_url`. -/
def Database.get_pre_container_by_url (db : Database) (url : String) : Option PreMediaContainer :=
  db.containers.lookup url

/-- Models `database_helper.add_pre_container` (an upsert keyed by url; insertion
at the front makes the newest entry the one `lookup` returns). -/
def Database.add_pre_container (db : Database) (c : PreMediaContainer) : Database :=
  ⟨db.badUrls, (c.url, c) :: db.containers⟩

/-- An HTTP response as far as the resolver inspects it. Header lookup is
modelled as exact-key lookup in an association list. -/
structure Response where
  headers : List (String × String)
  text : String
deriving DecidableEq

/-- Outcome of `session.get_(url, stream=True)`: a raised exception, `None`, or a
response. -/
inductive ProbeResult where
  | exn
  | noResponse
  | resp (r : Response)
deriving DecidableEq

/-- Models `key in headers`. -/
def headerContains (hs : List (String × String)) (k : String) : Bool := (hs.lookup k).isSome

/-- Models `headers[key]`, totalized: a missing key yields "" where the source
raises an uncaught KeyError (as at line 172, `int(con.headers["Content-Length"])`,
when an accepted response carries no Content-Length). Theorems about the accepted
branch therefore either hypothesize an actually returned result or state only
facts the source also satisfies on the raising path, such as the negative cache
being left untouched. -/
def headerGet (hs : List (String × String)) (k : String) : String := (hs.lookup k).getD ""

/-- The environment of helpers from outside request_helper.py that
`from_extern_link` / `document_from_api` call: the regex `isis_ignored` (matched as
an abstract predicate), the google-drive helpers from isisdl.backend.utils, the
authenticated session's GET, filename extraction from headers, `sanitize_name`,
`Course.path`, `MediaType.dir_name`, HTTP-date parsing, the current time, and the
`config.make_subdirs` toggle. -/
structure Env where
  isisIgnored : String → Bool
  parseGoogleDriveUrl : String → Option String
  getUrlFromGdriveConfirmation : String → Option String
  probe : String → ProbeResult
  findFilenames : List (String × String) → List String
  sanitize : String → String
  coursePath : Course → String → String
  dirName : MediaType → String
  parseHttpDate : String → Int
  now : Int
  make_subdirs : Bool

/-- Result of `PreMediaContainer.from_dump` (request_helper.py, lines 79-95):
False (bad url), True (not cached, should be downloaded), or the cached container. -/
inductive DumpResult where
  | shouldNotDownload
  | shouldDownload
  | cached (c : PreMediaContainer)
deriving DecidableEq

/-- Embeds `PreMediaContainer.from_dump`: the bad-url check comes first, then the
positive cache. -/
def PreMediaContainer.from_dump (db : Database) (url : String) : DumpResult :=
  if db.badUrls.contains url then .shouldNotDownload
  else
    match db.get_pre_container_by_url url with
    | none => .shouldDownload
    | some c => .cached c

/-- Host-specific pre-resolution outcome (request_helper.py, lines 113-148):
either an early `return None` (`stop`, not cached as bad) or the computed
`download_url` ("" when no host matched). Also records the URLs probed so far. -/
inductive PreResolve where
  | stop (probed : List String)
  | proceed (download_url : String) (probed : List String)
deriving DecidableEq

/-- Embeds the host-specific pre-resolution block of `from_extern_link`
(request_helper.py, lines 113-148): exlibrisgroup passes through, google-drive
links probe the uc endpoint and fall back to the confirmation page, tubcloud
links get the "/download" suffix. -/
def resolve_download_url (env : Env) (url : String) : PreResolve :=
  if strContainsSub url "tu-berlin.hosted.exlibrisgroup.com" then .proceed "" []
  else if strContainsSub url "https://drive.google.com/" then
    match env.parseGoogleDriveUrl url with
    | none => .stop []
    | some drive_id =>
      let temp_url := "https://drive.google.com/uc?id=" ++ drive_id
      match env.probe temp_url with
      | .exn => .stop [temp_url]
      | .noResponse => .stop [temp_url]
      | .resp con =>
        if headerContains con.headers "Content-Disposition" then .proceed temp_url [temp_url]
        else
          match env.getUrlFromGdriveConfirmation con.text with
          | none => .stop [temp_url]
          | some u => .proceed u [temp_url]
  else if strContainsSub url "tubcloud.tu-berlin.de" then
    .proceed (tubcloudDownloadUrl url) []
  else .proceed "" []

/-- Decimal value of a digit string (most significant first): the model of
Python's `int()` on digit strings, and the value map used to reason about
`Nat.repr`. Totalized: an empty or non-digit string, on which the source's
`int()` raises an uncaught ValueError, gets an arbitrary numeric value here, so
theorems about the accepted branch of `from_extern_link` must not assert that a
descriptor is produced or stored without hypothesizing the actual result. -/
def ofDigits (l : List Char) : Nat := l.foldl (fun a c => 10 * a + (c.toNat - 48)) 0

/-- Models the content-type gate (request_helper.py, line 162). -/
def contentTypeAccepted (hs : List (String × String)) : Bool :=
  headerContains hs "Content-Type"
    && (strStartsWith (headerGet hs "Content-Type") "application/"
        || strStartsWith (headerGet hs "Content-Type") "video/")

/-- Embeds `PreMediaContainer.from_extern_link` (request_helper.py, lines 97-211).
Returns the produced container (if any), the updated cache, and the list of URLs
passed to `session.get_` (the network probes), in order. The `time` computation
keeps the source's `if "" in con.headers` guard verbatim. The `size` computation
is totalized: when Content-Length is missing or non-numeric the source raises an
uncaught KeyError/ValueError at line 172 and stores nothing, while the model
continues with an arbitrary size; theorems about the accepted branch are stated
accordingly (see `headerGet` and `ofDigits`). -/
def PreMediaContainer.from_extern_link (env : Env) (db : Database) (url : String)
    (course : Course) (media_type : MediaType) (filename : Option String) :
    Option PreMediaContainer × Database × List String :=
  match PreMediaContainer.from_dump db url with
  | .shouldNotDownload => (none, db, [])
  | .cached c => (some c, db, [])
  | .shouldDownload =>
    if env.isisIgnored url then (none, db.add_bad_url url, [])
    else
      match resolve_download_url env url with
      | .stop probed => (none, db, probed)
      | .proceed download_url probed =>
        let target := if download_url = "" then url else download_url
        match env.probe target with
        | .exn => (none, db, probed ++ [target])
        | .noResponse => (none, db.add_bad_url url, probed ++ [target])
        | .resp con =>
          if contentTypeAccepted con.headers then
            let name :=
              match filename with
              | some f => f
              | none =>
                match env.findFilenames con.headers with
                | n :: _ => n
                | [] => basename url
            let size : Int := (ofDigits (headerGet con.headers "Content-Length").data : Nat)
            let location := env.coursePath course (env.sanitize (env.dirName media_type))
            let time :=
              if headerContains con.headers "" then env.parseHttpDate (headerGet con.headers "Last-Modified")
              else env.now
            let download_url2 := strip_forcedownload target
            let c : PreMediaContainer :=
              ⟨name, url, download_url2, location, time, course.course_id, media_type, size, none⟩
            (some c, db.add_pre_container c, probed ++ [target])
          else (none, db.add_bad_url url, probed ++ [target])

/-- Embeds `PreMediaContainer.document_from_api` (request_helper.py, lines 213-238).
The filesystem `os.makedirs` side effect is not modelled; note the force-download
suffix is stripped from `url` (the source url field), not from `download_url`. -/
def PreMediaContainer.document_from_api (env : Env) (name url download_url : String)
    (course : Course) (last_modified : Int) (relative_location : Option String)
    (size : Int) : PreMediaContainer :=
  let rel0 := match relative_location with | none => "" | some s => s
  let rel1 := stripSlashes rel0
  let rel2 := if env.make_subdirs = false then "" else rel1
  let is_video := strContainsSub url "mod/videoservice/file.php"
  let rel3 := if is_video then osPathJoin rel2 "Videos" else rel2
  let url2 := strip_forcedownload url
  let location := env.coursePath course (env.sanitize rel3)
  ⟨name, url2, download_url, location, last_modified, course.course_id, MediaType.document, size, none⟩

/- Concrete fixtures used by counterexamples and witnesses. -/

/-- A concrete course. -/
def course0 : Course := ⟨"c", "c", "c", 7⟩

/-- The empty cache. -/
def db0 : Database := ⟨[], []⟩

/-- A concrete environment whose probe raises (models a network failure), with
simple concretizations of the external helpers. -/
def env0 : Env :=
  ⟨fun _ => false, fun _ => none, fun _ => none, fun _ => ProbeResult.exn, fun _ => [],
   fun s => s, fun c s => c.name ++ "/" ++ s, fun _ => "d", fun _ => 0, 999, true⟩

/-- Headers of a response that carries a Last-Modified value. -/
def hdrs4 : List (String × String) :=
  [("Content-Type", "application/pdf"), ("Content-Length", "10"),
   ("Last-Modified", "Mon, 01 Jan 2024 00:00:00 GMT")]

/-- Environment whose probe answers with `hdrs4` and whose date parser yields the
epoch value of that Last-Modified header. -/
def env4 : Env :=
  ⟨fun _ => false, fun _ => none, fun _ => none, fun _ => ProbeResult.resp ⟨hdrs4, ""⟩, fun _ => [],
   fun s => s, fun c s => c.name ++ "/" ++ s, fun _ => "d", fun _ => 1704067200, 999, true⟩

/-- Environment whose probe returns `None`. -/
def env6 : Env :=
  ⟨fun _ => false, fun _ => none, fun _ => none, fun _ => ProbeResult.noResponse, fun _ => [],
   fun s => s, fun c s => c.name ++ "/" ++ s, fun _ => "d", fun _ => 0, 999, true⟩

/-- C4: code bug. The source guards the Last-Modified branch with
`if "" in con.headers` instead of `if "Last-Modified" in con.headers`
(request_helper.py, line 177), so an accepted probe whose response carries a
Last-Modified header still gets the current time: here the header is present and
parses to 1704067200, yet the stored descriptor's time is `env4.now` = 999. -/
theorem from_extern_link_last_modified_ignored :
    headerContains hdrs4 "Last-Modified" = true
    ∧ env4.parseHttpDate (headerGet hdrs4 "Last-Modified") = 1704067200
    ∧ (PreMediaContainer.from_extern_link env4 db0 "https://example.com/a.pdf" course0
        MediaType.document none).1
      = some ⟨"a.pdf", "https://example.com/a.pdf", "https://example.com/a.pdf", "c/d", 999, 7,
              MediaType.document, 10, none⟩
    ∧ (999 : Int) ≠ 1704067200 := by
  refine ⟨rfl, rfl, by decide, by decide⟩

/-- C5 counterexample: the claim says a network failure during the content probe
marks the URL bad; in the source the surrounding `except: return None` does not
touch the negative cache, so resolution stops with the cache unchanged. -/
theorem from_extern_link_network_failure_not_marked_bad :
    PreMediaContainer.from_extern_link env0 db0 "http://x.example/a" course0
      MediaType.external none
      = (none, db0, ["http://x.example/a"])
    ∧ db0.badUrls = [] := by
  refine ⟨by decide, rfl⟩

/-- C5 (amended): for a URL that is neither cached nor ignored, the resolver marks
it bad exactly when the content probe yields no response or a response failing the
content-type gate; a network failure (raised exception) and a failed host-specific
pre-resolution stop without marking bad, and on an accepted response the negative
cache is likewise left untouched (true of the source both when it stores a
descriptor and when a missing or malformed Content-Length makes line 172 raise
before any cache write). -/
theorem from_extern_link_markbad_spec (env : Env) (db : Database) (url : String)
    (course : Course) (media_type : MediaType) (filename : Option String)
    (hdump : PreMediaContainer.from_dump db url = DumpResult.shouldDownload)
    (hign : env.isisIgnored url = false) :
    (∀ probed, resolve_download_url env url = PreResolve.stop probed →
        PreMediaContainer.from_extern_link env db url course media_type filename
          = (none, db, probed))
    ∧ (∀ durl probed, resolve_download_url env url = PreResolve.proceed durl probed →
        (env.probe (if durl = "" then url else durl) = ProbeResult.exn →
            PreMediaContainer.from_extern_link env db url course media_type filename
              = (none, db, probed ++ [if durl = "" then url else durl]))
        ∧ (env.probe (if durl = "" then url else durl) = ProbeResult.noResponse →
            PreMediaContainer.from_extern_link env db url course media_type filename
              = (none, db.add_bad_url url, probed ++ [if durl = "" then url else durl]))
        ∧ (∀ con, env.probe (if durl = "" then url else durl) = ProbeResult.resp con →
            contentTypeAccepted con.headers = false →
            PreMediaContainer.from_extern_link env db url course media_type filename
              = (none, db.add_bad_url url, probed ++ [if durl = "" then url else durl]))
        ∧ (∀ con, env.probe (if durl = "" then url else durl) = ProbeResult.resp con →
            contentTypeAccepted con.headers = true →
            (PreMediaContainer.from_extern_link env db url course media_type filename).2.1.badUrls
              = db.badUrls)) := by
  unfold PreMediaContainer.from_extern_link
  rw [hdump, hign]
  refine ⟨?_, ?_⟩
  · intro probed hres
    rw [hres]
    rfl
  · intro durl probed hres
    rw [hres]
    refine ⟨?_, ?_, ?_, ?_⟩
    · intro hprobe
      simp only []
      rw [hprobe]
      rfl
    · intro hprobe
      simp only []
      rw [hprobe]
      rfl
    · intro con hprobe hct
      simp only []
      rw [hprobe]
      simp only [hct]
      rfl
    · intro con hprobe hct
      simp only []
      rw [hprobe]
      simp only [hct]
      rfl

/-- C5 witness: a concrete no-response probe marks the URL bad and produces no
descriptor, by the amended theorem. -/
theorem from_extern_link_markbad_witness :
    PreMediaContainer.from_extern_link env6 db0 "http://x.example/a" course0
      MediaType.external none
      = (none, db0.add_bad_url "http://x.example/a", ["http://x.example/a"]) := by
  have h := (from_extern_link_markbad_spec env6 db0 "http://x.example/a" course0
      MediaType.external none rfl rfl).2 "" [] (by decide)
  exact h.2.1 rfl

/-- C6: once a URL is in the negative cache, resolution returns no descriptor,
leaves the cache untouched and performs no network probe (the bad-url check is
first, so it also wins when a positive entry exists too); once a positive entry
exists (and the URL is not bad), resolution returns the cached descriptor
unchanged with no network probe. -/
theorem from_extern_link_cache_spec (env : Env) (db : Database) (url : String)
    (course : Course) (media_type : MediaType) (filename : Option String) :
    (db.badUrls.contains url = true →
        PreMediaContainer.from_extern_link env db url course media_type filename
          = (none, db, []))
    ∧ (db.badUrls.contains url = false →
        ∀ c, db.get_pre_container_by_url url = some c →
        PreMediaContainer.from_extern_link env db url course media_type filename
          = (some c, db, [])) := by
  constructor
  · intro h
    unfold PreMediaContainer.from_extern_link PreMediaContainer.from_dump
    rw [h]
    rfl
  · intro h c hc
    unfold PreMediaContainer.from_extern_link PreMediaContainer.from_dump
    rw [h, hc]
    rfl

/-- A concrete cached descriptor for the C6 witness. -/
def pmcCached : PreMediaContainer := ⟨"f", "v", "v", "L", 1, 7, MediaType.document, -1, none⟩

/-- A cache with one bad URL and one positive entry. -/
def db6 : Database := ⟨["u"], [("v", pmcCached)]⟩

/-- C6 witness: on a concrete cache, a bad URL yields no descriptor and no probe,
and a positively cached URL yields the cached descriptor with no probe, both by
the cache theorem. -/
theorem from_extern_link_cache_witness :
    PreMediaContainer.from_extern_link env0 db6 "u" course0 MediaType.external none
      = (none, db6, [])
    ∧ PreMediaContainer.from_extern_link env0 db6 "v" course0 MediaType.external none
      = (some pmcCached, db6, []) :=
  ⟨(from_extern_link_cache_spec env0 db6 "u" course0 MediaType.external none).1 rfl,
   (from_extern_link_cache_spec env0 db6 "v" course0 MediaType.external none).2 rfl pmcCached rfl⟩

/-- A pluginfile URL carrying the force-download suffix. -/
def forceUrl : String := "https://isis.tu-berlin.de/webservice/pluginfile.php/f.pdf?forcedownload=1"

/-- C7 counterexample: in `document_from_api` the force-download suffix is
stripped from the source `url` field, not from `download_url`: with the same
suffixed URL passed for both (as every caller does), the stored `download_url`
still ends in the suffix. -/
theorem document_from_api_download_url_not_stripped :
    strEndsWith (PreMediaContainer.document_from_api env0 "f.pdf" forceUrl forceUrl course0 100
        (some "") (-1)).download_url forcedownloadSuffix = true
    ∧ (PreMediaContainer.document_from_api env0 "f.pdf" forceUrl forceUrl course0 100
        (some "") (-1)).url = strDropRight forceUrl 16 := by
  refine ⟨by decide, by decide⟩

theorem strEndsWith_append (a b : String) : strEndsWith (a ++ b) b = true := by
  unfold strEndsWith
  rw [String.data_append]
  exact List.isSuffixOf_iff_suffix.2 (List.suffix_append a.data b.data)

/-- C7 (amended): `from_extern_link` strips the force-download suffix from the
probe target before storing it as the descriptor's download url;
`document_from_api` strips it from the source `url` field while storing
`download_url` exactly as passed; the tubcloud rewrite is idempotent and leaves
a URL already ending in "/download" unchanged. -/
theorem url_suffix_normalization_spec :
    (∀ env db url course media_type filename c db2 tr,
        PreMediaContainer.from_dump db url = DumpResult.shouldDownload →
        PreMediaContainer.from_extern_link env db url course media_type filename
          = (some c, db2, tr) →
        ∃ durl probed, resolve_download_url env url = PreResolve.proceed durl probed
          ∧ c.download_url = strip_forcedownload (if durl = "" then url else durl))
    ∧ (∀ env name url durl course lm rel sz,
        (PreMediaContainer.document_from_api env name url durl course lm rel sz).url
          = strip_forcedownload url
        ∧ (PreMediaContainer.document_from_api env name url durl course lm rel sz).download_url
          = durl)
    ∧ (∀ url, tubcloudDownloadUrl (tubcloudDownloadUrl url) = tubcloudDownloadUrl url)
    ∧ (∀ url, strEndsWith url "/download" = true → tubcloudDownloadUrl url = url) := by
  refine ⟨?_, ?_, ?_, ?_⟩
  · intro env db url course media_type filename c db2 tr hdump h
    unfold PreMediaContainer.from_extern_link at h
    rw [hdump] at h
    cases hig : env.isisIgnored url with
    | true => rw [hig] at h; simp at h
    | false =>
      rw [hig] at h
      simp only [Bool.false_eq_true, if_false] at h
      cases hres : resolve_download_url env url with
      | stop probed => rw [hres] at h; simp at h
      | proceed durl probed =>
        rw [hres] at h
        simp only [] at h
        refine ⟨durl, probed, rfl, ?_⟩
        cases hpr : env.probe (if durl = "" then url else durl) with
        | exn => rw [hpr] at h; simp at h
        | noResponse => rw [hpr] at h; simp at h
        | resp con =>
          rw [hpr] at h
          simp only [] at h
          cases hct : contentTypeAccepted con.headers with
          | false => rw [hct] at h; simp at h
          | true =>
            rw [hct] at h
            simp only [if_true, Prod.mk.injEq, Option.some.injEq] at h
            obtain ⟨hc, _, _⟩ := h
            rw [← hc]
  · intro env name url durl course lm rel sz
    exact ⟨rfl, rfl⟩
  · intro url
    unfold tubcloudDownloadUrl
    by_cases h : strEndsWith url "/download" = true
    · simp [h]
    · simp [h, strEndsWith_append]
  · intro url h
    unfold tubcloudDownloadUrl
    simp [h]

/-- The descriptor produced by a successful probe of `forceUrl` under `env4`. -/
def pmc7 : PreMediaContainer :=
  ⟨"n.pdf", forceUrl, "https://isis.tu-berlin.de/webservice/pluginfile.php/f.pdf", "c/d", 999, 7,
   MediaType.document, 10, none⟩

/-- C7 witness: on a concrete accepted resolution of a force-download URL, the
stored download url is the stripped probe target, by the normalization theorem. -/
theorem url_suffix_normalization_witness :
    pmc7.download_url = strip_forcedownload forceUrl := by
  obtain ⟨durl, probed, hres, hdu⟩ :=
    url_suffix_normalization_spec.1 env4 db0 forceUrl course0 MediaType.document (some "n.pdf")
      pmc7 (db0.add_pre_container pmc7) [forceUrl] rfl (by decide)
  have hres0 : resolve_download_url env4 forceUrl = PreResolve.proceed "" [] := by decide
  rw [hres0] at hres
  cases hres
  simpa using hdu

/-- The descending-by-time relation used by the final sort of
`RequestHelper.download_content` (request_helper.py, lines 576-577); a stable sort
with respect to it models Python's `sorted(lst, key=..., reverse=True)`. -/
def timeGE (a b : PreMediaContainer) : Prop := b.time ≤ a.time

instance : DecidableRel timeGE := fun a b => inferInstanceAs (Decidable (b.time ≤ a.time))

instance : IsTotal PreMediaContainer timeGE := ⟨fun a b => Int.le_total b.time a.time⟩

instance : IsTrans PreMediaContainer timeGE := ⟨fun _ _ _ h1 h2 => le_trans h2 h1⟩

/-- Models `sorted(lst, key=lambda x: x.time, reverse=True)`. -/
def sortByTimeDesc (l : List PreMediaContainer) : List PreMediaContainer :=
  List.insertionSort timeGE l

/-- Embeds the merge/sort tail of `RequestHelper.download_content`
(request_helper.py, lines 568-582): external results are partitioned into videos
and non-videos, non-videos are appended to the course documents, the
documents-plus-assignments bucket and the video bucket are each sorted newest
first, and the video bucket is concatenated after the document bucket. -/
def download_content_merge (documents mod_assign externResults : List PreMediaContainer) :
    List PreMediaContainer :=
  let videos := externResults.filter (fun t => t.media_type == MediaType.video)
  let documents2 := documents ++ externResults.filter (fun t => !(t.media_type == MediaType.video))
  sortByTimeDesc (documents2 ++ mod_assign) ++ sortByTimeDesc videos

/-- Concrete documents with last-modified 100, 300 and 200. -/
def doc100 : PreMediaContainer := ⟨"a", "ua", "ua", "L", 100, 7, MediaType.document, -1, none⟩

/-- See doc100. -/
def doc300 : PreMediaContainer := ⟨"b", "ub", "ub", "L", 300, 7, MediaType.document, -1, none⟩

/-- See doc100. -/
def doc200 : PreMediaContainer := ⟨"c", "uc", "uc", "L", 200, 7, MediaType.document, -1, none⟩

/-- C8: the merged discovery result is the documents-plus-assignments bucket
(course documents, then non-video external results, then assignments) sorted by
last-modified descending, followed by all videos sorted by last-modified
descending — so every video comes after every document; in particular document
times [100, 300, 200] come out [300, 200, 100]. -/
theorem download_content_merge_spec (documents mod_assign externResults : List PreMediaContainer) :
    (∃ A B, download_content_merge documents mod_assign externResults = A ++ B
      ∧ A.Perm ((documents ++ externResults.filter (fun t => !(t.media_type == MediaType.video)))
          ++ mod_assign)
      ∧ B.Perm (externResults.filter (fun t => t.media_type == MediaType.video))
      ∧ List.Sorted timeGE A ∧ List.Sorted timeGE B)
    ∧ download_content_merge [doc100, doc300, doc200] [] [] = [doc300, doc200, doc100] := by
  constructor
  · refine ⟨sortByTimeDesc ((documents ++ externResults.filter (fun t => !(t.media_type == MediaType.video))) ++ mod_assign),
      sortByTimeDesc (externResults.filter (fun t => t.media_type == MediaType.video)), rfl,
      List.perm_insertionSort timeGE _, List.perm_insertionSort timeGE _,
      List.sorted_insertionSort timeGE _, List.sorted_insertionSort timeGE _⟩
  · decide

/- Conflict resolution (request_helper.py, lines 633-651). Python's
`defaultdict(list)` grouping is modelled by `pyGroupBy`: keys in first-occurrence
order, each group holding the matching elements in list order. Mutation of the
`_name` field through object identity is modelled by indexing the input list with
positions (`List.enum`) and mapping the computed renames back over positions. -/

/-- The keys of a list in first-occurrence order, skipping those already seen. -/
def firstKeys {β : Type} [DecidableEq β] (seen : List β) : List β → List β
  | [] => []
  | k :: ks => if k ∈ seen then firstKeys seen ks else k :: firstKeys (k :: seen) ks

/-- Models Python's `defaultdict(list)` built by appending each element to the
group of its key: keys in first-occurrence order, each group in list order. -/
def pyGroupBy {α β : Type} [DecidableEq β] (key : α → β) (l : List α) : List (β × List α) :=
  (firstKeys [] (l.map key)).map (fun k => (k, l.filter (fun a => decide (key a = k))))

/-- Ascending last-modified on indexed descriptors: the key of the sort
`sorted(item, key=lambda x: x.time ...)` (request_helper.py, line 638); the
`x.time is None` fallback is dead code here since `time` is an int. -/
def entryTimeLE (a b : Nat × PreMediaContainer) : Prop := a.2.time ≤ b.2.time

instance : DecidableRel entryTimeLE := fun a b => inferInstanceAs (Decidable (a.2.time ≤ b.2.time))

instance : IsTotal (Nat × PreMediaContainer) entryTimeLE := ⟨fun a b => Int.le_total a.2.time b.2.time⟩

instance : IsTrans (Nat × PreMediaContainer) entryTimeLE := ⟨fun _ _ _ h1 h2 => le_trans h1 h2⟩

/-- Python's stable sort by time over indexed descriptors. -/
def timeSortEntries (l : List (Nat × PreMediaContainer)) : List (Nat × PreMediaContainer) :=
  List.insertionSort entryTimeLE l

/-- The renamed display name: `basename + f".{i}" + ext` with
`basename, ext = os.path.splitext(name)` (request_helper.py, lines 650-651). -/
def renameName (name : String) (i : Nat) : String :=
  (splitext name).1 ++ "." ++ Nat.repr i ++ (splitext name).2

/-- The position-to-new-name assignment computed by
`check_for_conflicts_in_files`: group indexed descriptors by display name, keep
groups of size ≠ 1, sort each by time, sub-group by location, keep sub-groups of
size > 1, and give each member the zero-based-index rename. -/
def conflict_renames (files : List PreMediaContainer) : List (Nat × String) :=
  ((pyGroupBy (fun x : Nat × PreMediaContainer => x.2._name) files.enum).filter
      (fun g => !(g.2.length == 1))).bind (fun g =>
    ((pyGroupBy (fun x : Nat × PreMediaContainer => x.2.location) (timeSortEntries g.2)).filter
        (fun g2 => decide (1 < g2.2.length))).bind (fun g2 =>
      g2.2.enum.map (fun ix => (ix.2.1, renameName ix.2.2._name ix.1))))

/-- Embeds `check_for_conflicts_in_files` (request_helper.py, lines 633-651) as a
function on the list: every position that received a rename gets its new display
name, every other descriptor is returned unchanged. -/
def check_for_conflicts_in_files (files : List PreMediaContainer) : List PreMediaContainer :=
  files.enum.map (fun x =>
    match (conflict_renames files).lookup x.1 with
    | some nm => { x.2 with _name := nm }
    | none => x.2)

/-- The name-group of `n`: the indexed descriptors whose display name is `n`. -/
def nameGroup (files : List PreMediaContainer) (n : String) : List (Nat × PreMediaContainer) :=
  files.enum.filter (fun x => decide (x.2._name = n))

/-- The location sub-group: the time-sorted name-group filtered to one target
directory. -/
def subGroup (files : List PreMediaContainer) (n loc : String) : List (Nat × PreMediaContainer) :=
  (timeSortEntries (nameGroup files n)).filter (fun x => decide (x.2.location = loc))

/-- The indexed descriptors sharing display name `n` and target directory `loc`. -/
def collisionClass (files : List PreMediaContainer) (n loc : String) : List (Nat × PreMediaContainer) :=
  files.enum.filter (fun x => decide (x.2._name = n ∧ x.2.location = loc))

/- Value of decimal digit lists, used to invert `Nat.repr`. -/

theorem digitChar_val {m : Nat} (h : m < 10) : (Nat.digitChar m).toNat - 48 = m := by
  interval_cases m <;> rfl

theorem toDigitsCore_shift (fuel : Nat) : ∀ (n : Nat) (ds : List Char), n < fuel →
    Nat.toDigitsCore 10 fuel n ds = Nat.toDigitsCore 10 fuel n [] ++ ds := by
  induction fuel with
  | zero => intro n ds h; omega
  | succ f ih =>
    intro n ds h
    simp only [Nat.toDigitsCore]
    by_cases h10 : n / 10 = 0
    · simp [h10]
    · have hpos : 0 < n := by
        rcases Nat.eq_zero_or_pos n with rfl | hp
        · simp at h10
        · exact hp
      have hlt : n / 10 < f := by
        have hd : n / 10 < n := Nat.div_lt_self hpos (by omega)
        omega
      simp only [h10, if_false]
      rw [ih (n / 10) (Nat.digitChar (n % 10) :: ds) hlt, ih (n / 10) [Nat.digitChar (n % 10)] hlt]
      rw [List.append_assoc]
      rfl

theorem ofDigits_toDigitsCore (fuel : Nat) : ∀ n, n < fuel →
    ofDigits (Nat.toDigitsCore 10 fuel n []) = n := by
  induction fuel with
  | zero => intro n h; omega
  | succ f ih =>
    intro n h
    simp only [Nat.toDigitsCore]
    by_cases h10 : n / 10 = 0
    · have hn10 : n < 10 := (Nat.div_eq_zero_iff (by omega)).1 h10
      simp only [h10, if_true]
      show ofDigits [Nat.digitChar (n % 10)] = n
      unfold ofDigits
      simp only [List.foldl]
      rw [digitChar_val (Nat.mod_lt n (by omega))]
      omega
    · have hpos : 0 < n := by
        rcases Nat.eq_zero_or_pos n with rfl | hp
        · simp at h10
        · exact hp
      have hlt : n / 10 < f := by
        have hd : n / 10 < n := Nat.div_lt_self hpos (by omega)
        omega
      simp only [h10, if_false]
      rw [toDigitsCore_shift f (n / 10) [Nat.digitChar (n % 10)] hlt]
      unfold ofDigits
      rw [List.foldl_append]
      show 10 * (ofDigits (Nat.toDigitsCore 10 f (n / 10) [])) + ((Nat.digitChar (n % 10)).toNat - 48) = n
      rw [ih (n / 10) hlt, digitChar_val (Nat.mod_lt n (by omega))]
      omega

theorem natRepr_injective {m n : Nat} (h : Nat.repr m = Nat.repr n) : m = n := by
  have hd : Nat.toDigits 10 m = Nat.toDigits 10 n := by
    have hcd := congrArg String.data h
    simpa [Nat.repr, List.asString] using hcd
  have h1 := ofDigits_toDigitsCore (m + 1) m (Nat.lt_succ_self m)
  have h2 := ofDigits_toDigitsCore (n + 1) n (Nat.lt_succ_self n)
  unfold Nat.toDigits at hd
  rw [← h1, ← h2, hd]

theorem renameName_inj {nm : String} {i j : Nat} (h : renameName nm i = renameName nm j) : i = j := by
  unfold renameName at h
  have hd := congrArg String.data h
  simp only [String.data_append] at hd
  have h2 := List.append_cancel_right hd
  have h3 := List.append_cancel_left h2
  exact natRepr_injective (String.ext h3)

theorem mem_firstKeys {β : Type} [DecidableEq β] (seen ks : List β) (k : β) :
    k ∈ firstKeys seen ks ↔ k ∉ seen ∧ k ∈ ks := by
  induction ks generalizing seen with
  | nil => simp [firstKeys]
  | cons a ks ih =>
    by_cases h : a ∈ seen
    · rw [firstKeys, if_pos h, ih]
      constructor
      · rintro ⟨h1, h2⟩
        exact ⟨h1, List.mem_cons_of_mem a h2⟩
      · rintro ⟨h1, h2⟩
        rcases List.mem_cons.1 h2 with rfl | h2
        · exact absurd h h1
        · exact ⟨h1, h2⟩
    · rw [firstKeys, if_neg h, List.mem_cons, ih]
      constructor
      · rintro (rfl | ⟨h1, h2⟩)
        · exact ⟨h, List.mem_cons_self _ _⟩
        · refine ⟨fun hk => h1 (List.mem_cons_of_mem _ hk), List.mem_cons_of_mem _ h2⟩
      · rintro ⟨h1, h2⟩
        by_cases hka : k = a
        · exact Or.inl hka
        · right
          refine ⟨?_, (List.mem_cons.1 h2).resolve_left hka⟩
          rw [List.mem_cons]
          rintro (rfl | hk)
          · exact hka rfl
          · exact h1 hk

theorem mem_pyGroupBy {α β : Type} [DecidableEq β] (key : α → β) (l : List α) (k : β) (g : List α) :
    (k, g) ∈ pyGroupBy key l ↔ k ∈ l.map key ∧ g = l.filter (fun a => decide (key a = k)) := by
  unfold pyGroupBy
  rw [List.mem_map]
  constructor
  · rintro ⟨k2, hk2, hek⟩
    injection hek with h1 h2
    subst h1
    subst h2
    exact ⟨((mem_firstKeys [] _ k2).1 hk2).2, rfl⟩
  · rintro ⟨hk, rfl⟩
    exact ⟨k, (mem_firstKeys [] _ k).2 ⟨List.not_mem_nil k, hk⟩, rfl⟩

theorem enum_fst_nodup {α : Type} (l : List α) : (l.enum.map Prod.fst).Nodup := by
  rw [List.enum_map_fst]
  exact List.nodup_range _

theorem lookup_mem {l : List (Nat × String)} {p : Nat} {nm : String}
    (h : l.lookup p = some nm) : (p, nm) ∈ l := by
  induction l with
  | nil => simp [List.lookup] at h
  | cons a l ih =>
    obtain ⟨k, v⟩ := a
    simp only [List.lookup] at h
    split at h
    · next heq =>
      have hk : p = k := by simpa using heq
      cases h
      subst hk
      exact List.mem_cons_self _ _
    · exact List.mem_cons_of_mem _ (ih h)

theorem lookup_isSome_of_mem_keys {l : List (Nat × String)} {p : Nat}
    (h : p ∈ l.map Prod.fst) : ∃ nm, l.lookup p = some nm := by
  induction l with
  | nil => simp at h
  | cons a l ih =>
    obtain ⟨k, v⟩ := a
    by_cases hpk : p = k
    · subst hpk
      exact ⟨v, by simp [List.lookup]⟩
    · simp only [List.map, List.mem_cons] at h
      have hp : p ∈ l.map Prod.fst := by
        rcases h with h | h
        · exact absurd h hpk
        · exact h
      obtain ⟨nm, hnm⟩ := ih hp
      refine ⟨nm, ?_⟩
      have hbeq : (p == k) = false := by simpa using hpk
      simp only [List.lookup, hbeq]
      exact hnm

theorem fst_ne_of_nodup_map_fst {α β : Type} {l : List (α × β)}
    (h : (l.map Prod.fst).Nodup) {i j : Nat} {x y : α × β}
    (hx : l[i]? = some x) (hy : l[j]? = some y) (hij : i ≠ j) : x.1 ≠ y.1 := by
  have hx2 : (l.map Prod.fst)[i]? = some x.1 := by
    rw [List.getElem?_map, hx]
    rfl
  have hy2 : (l.map Prod.fst)[j]? = some y.1 := by
    rw [List.getElem?_map, hy]
    rfl
  obtain ⟨hi, hxi⟩ := List.getElem?_eq_some.1 hx2
  obtain ⟨hj, hyj⟩ := List.getElem?_eq_some.1 hy2
  intro heq
  apply hij
  exact (@List.Nodup.getElem_inj_iff _ _ h i hi j hj).1 (by rw [hxi, hyj, heq])

theorem one_lt_length_of_two_mem {α : Type} {l : List α} {a b : α}
    (ha : a ∈ l) (hb : b ∈ l) (hab : a ≠ b) : 1 < l.length := by
  match l with
  | [] => exact absurd ha (List.not_mem_nil a)
  | [x] =>
    rw [List.mem_singleton] at ha hb
    exact absurd (ha.trans hb.symm) hab
  | x :: y :: t => simp only [List.length]; omega

theorem mem_collisionClass {files : List PreMediaContainer} {n loc : String}
    {x : Nat × PreMediaContainer} :
    x ∈ collisionClass files n loc ↔ x ∈ files.enum ∧ x.2._name = n ∧ x.2.location = loc := by
  unfold collisionClass
  rw [List.mem_filter]
  simp

theorem subGroup_entry {files : List PreMediaContainer} {n loc : String}
    {x : Nat × PreMediaContainer} (hx : x ∈ subGroup files n loc) :
    x ∈ files.enum ∧ x.2._name = n ∧ x.2.location = loc := by
  unfold subGroup at hx
  rw [List.mem_filter] at hx
  obtain ⟨hx1, hx2⟩ := hx
  unfold timeSortEntries at hx1
  rw [List.mem_insertionSort] at hx1
  unfold nameGroup at hx1
  rw [List.mem_filter] at hx1
  refine ⟨hx1.1, by simpa using hx1.2, by simpa using hx2⟩

theorem subGroup_perm (files : List PreMediaContainer) (n loc : String) :
    (subGroup files n loc).Perm (collisionClass files n loc) := by
  unfold subGroup collisionClass
  have h1 : (timeSortEntries (nameGroup files n)).Perm (nameGroup files n) :=
    List.perm_insertionSort _ _
  refine (h1.filter _).trans ?_
  unfold nameGroup
  rw [List.filter_filter]
  have hfp : ∀ x ∈ files.enum,
      (decide (x.2.location = loc) && decide (x.2._name = n))
        = decide (x.2._name = n ∧ x.2.location = loc) := by
    intro x _
    rw [Bool.decide_and, Bool.and_comm]
  rw [List.filter_congr hfp]

theorem subGroup_sorted (files : List PreMediaContainer) (n loc : String) :
    List.Sorted entryTimeLE (subGroup files n loc) :=
  List.Pairwise.sublist (List.filter_sublist _) (List.sorted_insertionSort entryTimeLE _)

theorem subGroup_fst_nodup (files : List PreMediaContainer) (n loc : String) :
    ((subGroup files n loc).map Prod.fst).Nodup := by
  have h0 := enum_fst_nodup files
  have h1 : ((nameGroup files n).map Prod.fst).Nodup :=
    List.Nodup.sublist (List.Sublist.map Prod.fst (List.filter_sublist _)) h0
  have h2 : ((timeSortEntries (nameGroup files n)).map Prod.fst).Nodup := by
    refine (List.Perm.nodup_iff ?_).2 h1
    exact (List.perm_insertionSort _ _).map Prod.fst
  exact List.Nodup.sublist (List.Sublist.map Prod.fst (List.filter_sublist _)) h2

theorem collisionClass_fst_nodup (files : List PreMediaContainer) (n loc : String) :
    ((collisionClass files n loc).map Prod.fst).Nodup :=
  List.Nodup.sublist (List.Sublist.map Prod.fst (List.filter_sublist _)) (enum_fst_nodup files)

theorem mem_conflict_renames {files : List PreMediaContainer} {p : Nat} {nm : String} :
    (p, nm) ∈ conflict_renames files ↔
      ∃ n loc i x,
        n ∈ files.enum.map (fun e : Nat × PreMediaContainer => e.2._name)
        ∧ (nameGroup files n).length ≠ 1
        ∧ loc ∈ (timeSortEntries (nameGroup files n)).map
            (fun e : Nat × PreMediaContainer => e.2.location)
        ∧ 1 < (subGroup files n loc).length
        ∧ (subGroup files n loc)[i]? = some x
        ∧ p = x.1 ∧ nm = renameName x.2._name i := by
  unfold conflict_renames
  constructor
  · intro h
    rw [List.mem_flatMap] at h
    obtain ⟨g, hg, h⟩ := h
    rw [List.mem_filter] at hg
    obtain ⟨hgmem, hglen⟩ := hg
    obtain ⟨n, gl⟩ := g
    rw [mem_pyGroupBy] at hgmem
    obtain ⟨hn, rfl⟩ := hgmem
    rw [List.mem_flatMap] at h
    obtain ⟨g2, hg2, h⟩ := h
    rw [List.mem_filter] at hg2
    obtain ⟨hg2mem, hg2len⟩ := hg2
    obtain ⟨loc, sl⟩ := g2
    rw [mem_pyGroupBy] at hg2mem
    obtain ⟨hloc, rfl⟩ := hg2mem
    rw [List.mem_map] at h
    obtain ⟨ix, hix, hfx⟩ := h
    obtain ⟨i, x⟩ := ix
    have hfx2 : (x.1, renameName x.2._name i) = (p, nm) := hfx
    injection hfx2 with hf1 hf2
    refine ⟨n, loc, i, x, hn, by simpa using hglen, hloc, by simpa using hg2len, ?_,
      hf1.symm, hf2.symm⟩
    exact List.mem_enum_iff_getElem?.1 hix
  · rintro ⟨n, loc, i, x, hn, hlen, hloc, hsublen, hget, rfl, rfl⟩
    rw [List.mem_flatMap]
    refine ⟨(n, nameGroup files n), ?_, ?_⟩
    · rw [List.mem_filter]
      exact ⟨(mem_pyGroupBy _ _ _ _).2 ⟨hn, rfl⟩, by simpa using hlen⟩
    · rw [List.mem_flatMap]
      refine ⟨(loc, subGroup files n loc), ?_, ?_⟩
      · rw [List.mem_filter]
        exact ⟨(mem_pyGroupBy _ _ _ _).2 ⟨hloc, rfl⟩, by simpa using hsublen⟩
      · rw [List.mem_map]
        exact ⟨(i, x), List.mem_enum_iff_getElem?.2 hget, rfl⟩

theorem conflict_renames_functional {files : List PreMediaContainer} {p : Nat} {nm1 nm2 : String}
    (h1 : (p, nm1) ∈ conflict_renames files) (h2 : (p, nm2) ∈ conflict_renames files) :
    nm1 = nm2 := by
  rw [mem_conflict_renames] at h1 h2
  obtain ⟨n1, l1, i1, x1, _, _, _, _, hget1, hp1, hnm1⟩ := h1
  obtain ⟨n2, l2, i2, x2, _, _, _, _, hget2, hp2, hnm2⟩ := h2
  have hx1mem : x1 ∈ subGroup files n1 l1 := List.mem_iff_getElem?.2 ⟨i1, hget1⟩
  have hx2mem : x2 ∈ subGroup files n2 l2 := List.mem_iff_getElem?.2 ⟨i2, hget2⟩
  obtain ⟨he1, hname1, hloc1⟩ := subGroup_entry hx1mem
  obtain ⟨he2, hname2, hloc2⟩ := subGroup_entry hx2mem
  have hv1 : files[x1.1]? = some x1.2 := List.mem_enum_iff_getElem?.1 he1
  have hv2 : files[x2.1]? = some x2.2 := List.mem_enum_iff_getElem?.1 he2
  have hfst : x1.1 = x2.1 := by rw [← hp1, ← hp2]
  have hsnd : x1.2 = x2.2 := by
    rw [hfst] at hv1
    exact Option.some.inj (hv1.symm.trans hv2)
  have hx12 : x2 = x1 := (Prod.ext hfst hsnd).symm
  subst hx12
  have hnn : n1 = n2 := hname1.symm.trans hname2
  have hll : l1 = l2 := hloc1.symm.trans hloc2
  subst hnn
  subst hll
  by_cases hij : i1 = i2
  · subst hij
    rw [hnm1, hnm2]
  · exfalso
    exact fst_ne_of_nodup_map_fst (subGroup_fst_nodup files n1 l1) hget1 hget2 hij rfl

theorem conflict_renames_lookup_of_collision {files : List PreMediaContainer} {p : Nat}
    {f : PreMediaContainer} (hp : files[p]? = some f)
    (hcoll : 1 < (collisionClass files f._name f.location).length) :
    ∃ i, (subGroup files f._name f.location)[i]? = some (p, f)
      ∧ (conflict_renames files).lookup p = some (renameName f._name i) := by
  have henum : (p, f) ∈ files.enum := List.mem_enum_iff_getElem?.2 hp
  have hcc : (p, f) ∈ collisionClass files f._name f.location :=
    mem_collisionClass.2 ⟨henum, rfl, rfl⟩
  have hsub : (p, f) ∈ subGroup files f._name f.location :=
    ((subGroup_perm files _ _).mem_iff).2 hcc
  obtain ⟨i, hget⟩ := List.mem_iff_getElem?.1 hsub
  refine ⟨i, hget, ?_⟩
  have hsublen : 1 < (subGroup files f._name f.location).length := by
    rw [(subGroup_perm files _ _).length_eq]
    exact hcoll
  have hnglen : (nameGroup files f._name).length ≠ 1 := by
    have h1 : (subGroup files f._name f.location).length
        ≤ (timeSortEntries (nameGroup files f._name)).length := List.length_filter_le _ _
    have h2 : (timeSortEntries (nameGroup files f._name)).length
        = (nameGroup files f._name).length := (List.perm_insertionSort _ _).length_eq
    omega
  have hmem : (p, renameName f._name i) ∈ conflict_renames files := by
    rw [mem_conflict_renames]
    refine ⟨f._name, f.location, i, (p, f), List.mem_map.2 ⟨(p, f), henum, rfl⟩, hnglen,
      ?_, hsublen, hget, rfl, rfl⟩
    have hts : (p, f) ∈ timeSortEntries (nameGroup files f._name) := by
      have h3 := hsub
      unfold subGroup at h3
      exact (List.mem_filter.1 h3).1
    exact List.mem_map.2 ⟨(p, f), hts, rfl⟩
  have hkey : p ∈ (conflict_renames files).map Prod.fst := List.mem_map.2 ⟨_, hmem, rfl⟩
  obtain ⟨nm0, hnm0⟩ := lookup_isSome_of_mem_keys hkey
  rw [hnm0, conflict_renames_functional (lookup_mem hnm0) hmem]

theorem conflict_renames_lookup_of_unique {files : List PreMediaContainer} {p : Nat}
    {f : PreMediaContainer} (hp : files[p]? = some f)
    (huniq : ∀ q g, files[q]? = some g → q ≠ p →
        ¬(g._name = f._name ∧ g.location = f.location)) :
    (conflict_renames files).lookup p = none := by
  cases hlk : (conflict_renames files).lookup p with
  | none => rfl
  | some nm =>
    exfalso
    have hmem := lookup_mem hlk
    rw [mem_conflict_renames] at hmem
    obtain ⟨n, loc, i, x, _, _, _, hsublen, hget, hp1, _⟩ := hmem
    have hxmem : x ∈ subGroup files n loc := List.mem_iff_getElem?.2 ⟨i, hget⟩
    obtain ⟨hxe, hxn, hxl⟩ := subGroup_entry hxmem
    have hv : files[x.1]? = some x.2 := List.mem_enum_iff_getElem?.1 hxe
    have hx2f : x.2 = f := by
      rw [← hp1] at hv
      exact Option.some.inj (hv.symm.trans hp)
    have hcclen : 1 < (collisionClass files n loc).length := by
      rw [← (subGroup_perm files n loc).length_eq]
      exact hsublen
    have h0 : 0 < (collisionClass files n loc).length := by omega
    obtain ⟨a, ha⟩ : ∃ a, (collisionClass files n loc)[0]? = some a :=
      ⟨_, List.getElem?_eq_getElem h0⟩
    obtain ⟨b, hb⟩ : ∃ b, (collisionClass files n loc)[1]? = some b :=
      ⟨_, List.getElem?_eq_getElem hcclen⟩
    have hne : a.1 ≠ b.1 :=
      fst_ne_of_nodup_map_fst (collisionClass_fst_nodup files n loc) ha hb (by omega)
    obtain ⟨hae, han, hal⟩ := mem_collisionClass.1 (List.mem_iff_getElem?.2 ⟨0, ha⟩)
    obtain ⟨hbe, hbn, hbl⟩ := mem_collisionClass.1 (List.mem_iff_getElem?.2 ⟨1, hb⟩)
    have hfn : f._name = n := by rw [← hx2f, hxn]
    have hfl : f.location = loc := by rw [← hx2f, hxl]
    by_cases hap : a.1 = p
    · refine huniq b.1 b.2 (List.mem_enum_iff_getElem?.1 hbe) ?_ ⟨?_, ?_⟩
      · intro hbp
        exact hne (hap.trans hbp.symm)
      · rw [hbn, hfn]
      · rw [hbl, hfl]
    · refine huniq a.1 a.2 (List.mem_enum_iff_getElem?.1 hae) hap ⟨?_, ?_⟩
      · rw [han, hfn]
      · rw [hal, hfl]

theorem check_getElem? (files : List PreMediaContainer) (p : Nat) :
    (check_for_conflicts_in_files files)[p]? =
      (files[p]?).map (fun f =>
        match (conflict_renames files).lookup p with
        | some nm => { f with _name := nm }
        | none => f) := by
  unfold check_for_conflicts_in_files
  rw [List.getElem?_map, List.getElem?_enum]
  cases files[p]? with
  | none => rfl
  | some f => rfl

/-- Two descriptors named "notes.pdf" in the same target directory, timestamps 1 < 2. -/
def notesA : PreMediaContainer := ⟨"notes.pdf", "ua", "ua", "d", 1, 7, MediaType.document, -1, none⟩

/-- See notesA. -/
def notesB : PreMediaContainer := ⟨"notes.pdf", "ub", "ub", "d", 2, 7, MediaType.document, -1, none⟩

/-- Two descriptors named "notes.pdf" in different target directories. -/
def notesC : PreMediaContainer := ⟨"notes.pdf", "uc", "uc", "d1", 1, 7, MediaType.document, -1, none⟩

/-- See notesC. -/
def notesD : PreMediaContainer := ⟨"notes.pdf", "ud", "ud", "d2", 2, 7, MediaType.document, -1, none⟩

/-- A descriptor whose original name already carries the numeric suffix the pass
produces. -/
def notesE : PreMediaContainer := ⟨"notes.0.pdf", "ue", "ue", "d", 0, 7, MediaType.document, -1, none⟩

/-- C2: conflict resolution leaves every descriptor without a same-name
same-directory partner unchanged, and renames every collision class (size > 1) by
ascending last-modified order with a zero-based index inserted before the
extension; in particular the two "notes.pdf" descriptors in one directory become
"notes.0.pdf" (t=1) and "notes.1.pdf" (t=2), while same-named descriptors in
different directories keep their names. -/
theorem conflict_resolution_renaming_spec (files : List PreMediaContainer) :
    (∀ (p : Nat) (f : PreMediaContainer), files[p]? = some f →
        (∀ (q : Nat) (g : PreMediaContainer), files[q]? = some g → q ≠ p →
            ¬(g._name = f._name ∧ g.location = f.location)) →
        (check_for_conflicts_in_files files)[p]? = some f)
    ∧ (∀ n loc : String, 1 < (collisionClass files n loc).length →
        ∃ sub, sub.Perm (collisionClass files n loc)
          ∧ List.Sorted entryTimeLE sub
          ∧ ∀ (i : Nat) (x : Nat × PreMediaContainer), sub[i]? = some x →
              (check_for_conflicts_in_files files)[x.1]?
                = some { x.2 with _name := renameName x.2._name i })
    ∧ check_for_conflicts_in_files [notesA, notesB]
        = [{ notesA with _name := "notes.0.pdf" }, { notesB with _name := "notes.1.pdf" }]
    ∧ check_for_conflicts_in_files [notesC, notesD] = [notesC, notesD] := by
  refine ⟨?_, ?_, by decide, by decide⟩
  · intro p f hp huniq
    rw [check_getElem?, hp, conflict_renames_lookup_of_unique hp huniq]
    rfl
  · intro n loc hcoll
    refine ⟨subGroup files n loc, subGroup_perm files n loc, subGroup_sorted files n loc, ?_⟩
    intro i x hget
    have hxmem : x ∈ subGroup files n loc := List.mem_iff_getElem?.2 ⟨i, hget⟩
    obtain ⟨hxe, hxn, hxl⟩ := subGroup_entry hxmem
    have hv : files[x.1]? = some x.2 := List.mem_enum_iff_getElem?.1 hxe
    have hcoll2 : 1 < (collisionClass files x.2._name x.2.location).length := by
      rw [hxn, hxl]
      exact hcoll
    obtain ⟨j, hgetj, hlookup⟩ := conflict_renames_lookup_of_collision hv hcoll2
    have hget2 : (subGroup files x.2._name x.2.location)[i]? = some x := by
      rw [hxn, hxl]
      exact hget
    have hij : i = j := by
      by_contra hne
      exact fst_ne_of_nodup_map_fst (subGroup_fst_nodup files x.2._name x.2.location)
        hget2 hgetj hne rfl
    subst hij
    rw [check_getElem?, hv, hlookup]
    rfl

/-- C2 witness: a concrete no-collision pair (same name, different directories) is
returned unchanged, by the renaming theorem. -/
theorem conflict_resolution_renaming_witness :
    (check_for_conflicts_in_files [notesC, notesD])[0]? = some notesC := by
  refine (conflict_resolution_renaming_spec [notesC, notesD]).1 0 notesC rfl ?_
  intro q g hq hqp hcontra
  match q with
  | 0 => exact hqp rfl
  | 1 =>
    have h1 : ([notesC, notesD] : List PreMediaContainer)[(1 : Nat)]? = some notesD := rfl
    rw [h1] at hq
    have hg : g = notesD := (Option.some.inj hq).symm
    subst hg
    exact absurd hcontra.2 (by decide)
  | (n + 2) =>
    rw [List.getElem?_eq_none (show ([notesC, notesD] : List PreMediaContainer).length ≤ n + 2 by
      simp)] at hq
    exact Option.noConfusion hq

/-- C3 counterexample: with two "notes.pdf" descriptors and one descriptor already
named "notes.0.pdf", all in directory "d", one pass renames the first pair to
"notes.0.pdf" / "notes.1.pdf", so the output still has two descriptors sharing
display name "notes.0.pdf" and directory "d". -/
theorem conflict_resolution_invariant_counterexample :
    check_for_conflicts_in_files [notesA, notesB, notesE]
      = [{ notesA with _name := "notes.0.pdf" }, { notesB with _name := "notes.1.pdf" }, notesE]
    ∧ ({ notesA with _name := "notes.0.pdf" } : PreMediaContainer)._name = notesE._name
    ∧ ({ notesA with _name := "notes.0.pdf" } : PreMediaContainer).location = notesE.location := by
  refine ⟨by decide, rfl, rfl⟩

/-- C3 (amended): any two descriptors that shared both display name and target
directory before the pass have distinct display names after it (the original
invariant fails when an input name already carries the produced numeric suffix,
as the counterexample shows). -/
theorem conflict_resolution_pairwise_distinct (files : List PreMediaContainer)
    (p q : Nat) (f g : PreMediaContainer)
    (hp : files[p]? = some f) (hq : files[q]? = some g) (hpq : p ≠ q)
    (hn : g._name = f._name) (hl : g.location = f.location) :
    ∃ f2 g2, (check_for_conflicts_in_files files)[p]? = some f2
      ∧ (check_for_conflicts_in_files files)[q]? = some g2
      ∧ f2._name ≠ g2._name := by
  have hpf : (p, f) ∈ collisionClass files f._name f.location :=
    mem_collisionClass.2 ⟨List.mem_enum_iff_getElem?.2 hp, rfl, rfl⟩
  have hqg : (q, g) ∈ collisionClass files f._name f.location :=
    mem_collisionClass.2 ⟨List.mem_enum_iff_getElem?.2 hq, hn, hl⟩
  have hne : (p, f) ≠ (q, g) := by
    intro hcontra
    injection hcontra with h1 _
    exact hpq h1
  have hcoll : 1 < (collisionClass files f._name f.location).length :=
    one_lt_length_of_two_mem hpf hqg hne
  obtain ⟨i, hgeti, hlooki⟩ := conflict_renames_lookup_of_collision hp hcoll
  have hcoll2 : 1 < (collisionClass files g._name g.location).length := by
    rw [hn, hl]
    exact hcoll
  obtain ⟨j, hgetj, hlookj⟩ := conflict_renames_lookup_of_collision hq hcoll2
  have hgetj2 : (subGroup files f._name f.location)[j]? = some (q, g) := by
    rw [← hn, ← hl]
    exact hgetj
  have hij : i ≠ j := by
    intro hcontra
    subst hcontra
    have h2 := hgeti.symm.trans hgetj2
    injection h2 with h3
    injection h3 with h4 _
    exact hpq h4
  refine ⟨{ f with _name := renameName f._name i }, { g with _name := renameName g._name j },
    ?_, ?_, ?_⟩
  · rw [check_getElem?, hp, hlooki]
    rfl
  · rw [check_getElem?, hq, hlookj]
    rfl
  · show renameName f._name i ≠ renameName g._name j
    rw [hn]
    intro hcontra
    exact hij (renameName_inj hcontra)

/-- C3 witness: the two colliding "notes.pdf" descriptors end with different
entries (hence different names), by the amended theorem. -/
theorem conflict_resolution_pairwise_witness :
    (check_for_conflicts_in_files [notesA, notesB])[0]?
      ≠ (check_for_conflicts_in_files [notesA, notesB])[1]? := by
  obtain ⟨f2, g2, h1, h2, h3⟩ :=
    conflict_resolution_pairwise_distinct [notesA, notesB] 0 1 notesA notesB rfl rfl
      (by decide) rfl rfl
  rw [h1, h2]
  intro hcontra
  exact h3 (congrArg PreMediaContainer._name (Option.some.inj hcontra))

/-- C10: one pass of conflict resolution neither adds, removes nor reorders
descriptors, changes at most the display-name field of each descriptor, and
leaves descriptors without a same-name same-directory partner entirely
unchanged. -/
theorem conflict_resolution_frame_spec (files : List PreMediaContainer) :
    (check_for_conflicts_in_files files).length = files.length
    ∧ (∀ (p : Nat) (f : PreMediaContainer), files[p]? = some f → ∃ f2,
        (check_for_conflicts_in_files files)[p]? = some f2
        ∧ f2.url = f.url ∧ f2.download_url = f.download_url ∧ f2.location = f.location
        ∧ f2.time = f.time ∧ f2.course_id = f.course_id ∧ f2.media_type = f.media_type
        ∧ f2.size = f.size ∧ f2.checksum = f.checksum)
    ∧ (∀ (p : Nat) (f : PreMediaContainer), files[p]? = some f →
        (∀ (q : Nat) (g : PreMediaContainer), files[q]? = some g → q ≠ p →
            ¬(g._name = f._name ∧ g.location = f.location)) →
        (check_for_conflicts_in_files files)[p]? = some f) := by
  refine ⟨?_, ?_, ?_⟩
  · unfold check_for_conflicts_in_files
    rw [List.length_map, List.enum_length]
  · intro p f hp
    rw [check_getElem?, hp]
    cases hlk : (conflict_renames files).lookup p with
    | none => exact ⟨f, rfl, rfl, rfl, rfl, rfl, rfl, rfl, rfl, rfl⟩
    | some nm => exact ⟨{ f with _name := nm }, rfl, rfl, rfl, rfl, rfl, rfl, rfl, rfl, rfl⟩
  · intro p f hp huniq
    rw [check_getElem?, hp, conflict_renames_lookup_of_unique hp huniq]
    rfl

/-- C10 witness: on a concrete three-element input the pass returns three
descriptors, by the frame theorem. -/
theorem conflict_resolution_frame_witness :
    (check_for_conflicts_in_files [notesA, notesB, notesE]).length = 3 := by
  have h := (conflict_resolution_frame_spec [notesA, notesB, notesE]).1
  simpa using h

/-- Concrete courses and configuration for the C1 witness. -/
def course5 : Course := ⟨"a", "a", "a", 5⟩

/-- See course5. -/
def course6 : Course := ⟨"b", "b", "b", 6⟩

/-- A configuration with whitelist, and blacklist set. -/
def configWB : Config := ⟨some [5], some [6]⟩

/-- C1 witness: with whitelist [5] and blacklist [6], course 5 is included and
course 6 excluded, by the filtering theorem. -/
theorem get_courses_whitelist_blacklist_witness :
    course5 ∈ (get_courses configWB [course5, course6]).2
    ∧ course6 ∉ (get_courses configWB [course5, course6]).2 := by
  constructor
  · exact ((get_courses_whitelist_blacklist_spec configWB [course5, course6]).2.2.2.2 course5).2
      ⟨by decide, (by decide : (5 : Int) ∈ [(5 : Int)] ∧ (5 : Int) ∉ [(6 : Int)])⟩
  · intro hmem
    have h :=
      ((get_courses_whitelist_blacklist_spec configWB [course5, course6]).2.2.2.2 course6).1 hmem
    exact absurd h.2 (by decide : ¬((6 : Int) ∈ [(5 : Int)] ∧ (6 : Int) ∉ [(6 : Int)]))

/-- C9 witness: two courses with equal ids compare equal, by the key theorem. -/
theorem course_eq_order_hash_witness :
    Course.eq course5 (PyValue.course ⟨"x", "x", "x", 5⟩) = true :=
  (course_eq_order_hash_spec.1 course5 ⟨"x", "x", "x", 5⟩).2 rfl
